import Mathlib

/-!
Verification of the ipfs-kad-dht-evaluation harness (src/index.js).

Shallow embedding conventions:
* JavaScript strings are embedded as `List Char`.
* Byte buffers are embedded as `List Nat` with every element `< 256` where
  it matters; 32-bit words are `Nat` reduced `% 2 ^ 32` at overflow points.
* Functions that `throw` are embedded with an `Except` result.
* The external libp2p DHT capability (`getClosestPeers`) is not part of the
  repository; functions that consume its answer take the answer (the ordered
  peer-identifier sequence it yielded) as an explicit argument.
-/

deriving instance DecidableEq for Except

namespace KadEval

/-! ## String splitting (JavaScript String.prototype.split with a one-character separator) -/

/-- Accumulator-based splitter mirroring the behaviour of the JavaScript
call in the source (splitting a string on a separator character, keeping
empty segments; the empty string splits to one empty segment). -/
def splitAux (sep : Char) : List Char → List Char → List (List Char)
  | acc, [] => [acc.reverse]
  | acc, c :: rest =>
    if c = sep then acc.reverse :: splitAux sep [] rest
    else splitAux sep (c :: acc) rest

/-- JavaScript string split on a single separator character. -/
def jsSplit (sep : Char) (s : List Char) : List (List Char) :=
  splitAux sep [] s

/-! ## parseProviderKey (src/index.js lines 26-36) -/

/-- Error raised by the provider-key parser (the thrown
incorrectly-formatted-provider-entry-key error in the source). -/
inductive KeyErr where
  | malformedKey
deriving DecidableEq, Repr

/-- Embedding of parseProviderKey: split the raw key on the slash character;
if the number of parts is not exactly 4, throw; otherwise return the record
with cid := parts[2] and peerId := parts[3]. -/
def parseProviderKey (key : List Char) : Except KeyErr (List Char × List Char) :=
  let parts := jsSplit '/' key
  if parts.length ≠ 4 then
    Except.error KeyErr.malformedKey
  else
    Except.ok (parts.getD 2 [], parts.getD 3 [])

/-! ## Lemmas about the splitter -/

/-- Splitting a separator-free suffix yields a single segment. -/
lemma splitAux_not_mem (sep : Char) (l acc : List Char) (h : sep ∉ l) :
    splitAux sep acc l = [acc.reverse ++ l] := by
  induction l generalizing acc with
  | nil => simp [splitAux]
  | cons c rest ih =>
    rw [List.mem_cons, not_or] at h
    have hc : ¬ c = sep := fun hcs => h.1 hcs.symm
    simp [splitAux, hc, ih _ h.2]

/-- Splitting past a separator-free prefix peels off one segment. -/
lemma splitAux_append (sep : Char) (l1 l2 acc : List Char) (h : sep ∉ l1) :
    splitAux sep acc (l1 ++ sep :: l2) = (acc.reverse ++ l1) :: splitAux sep [] l2 := by
  induction l1 generalizing acc with
  | nil => simp [splitAux]
  | cons c rest ih =>
    rw [List.mem_cons, not_or] at h
    have hc : ¬ c = sep := fun hcs => h.1 hcs.symm
    simp [splitAux, hc, ih _ h.2]

/-- C2. parseProviderKey throws the malformed-key error exactly when the
slash-split of the raw key does not have exactly 4 segments. -/
theorem parseProviderKey_error_iff_segments_ne_four (key : List Char) :
    parseProviderKey key = Except.error KeyErr.malformedKey ↔
      (jsSplit '/' key).length ≠ 4 := by
  by_cases h : (jsSplit '/' key).length = 4 <;> simp [parseProviderKey, h]

/-- C9. parseProviderKey validates only the segment count: any raw key whose
slash-split has exactly 4 segments is accepted, and the returned pair is
(third segment, fourth segment), with no check on the segments' contents. -/
theorem parseProviderKey_accepts_any_four_segments (key : List Char)
    (h : (jsSplit '/' key).length = 4) :
    parseProviderKey key =
      Except.ok ((jsSplit '/' key).getD 2 [], (jsSplit '/' key).getD 3 []) := by
  simp [parseProviderKey, h]

/-- Witness for C9: the key "/foo//x" has 4 segments, none equal to
"providers" in position 2 and an empty third segment, and is still accepted,
returning the pair ("", "x"). -/
theorem parseProviderKey_accepts_any_four_segments_witness :
    (jsSplit '/' "/foo//x".data).length = 4 ∧
      parseProviderKey "/foo//x".data =
        Except.ok ((jsSplit '/' "/foo//x".data).getD 2 [],
          (jsSplit '/' "/foo//x".data).getD 3 []) :=
  ⟨by decide, parseProviderKey_accepts_any_four_segments "/foo//x".data (by decide)⟩

/-- C3. Round-trip: a well-formed key built as "/providers/" ++ cid ++ "/"
++ peer (cid and peer slash-free, as Base58 and Base32 text always are)
parses back to exactly the pair (cid, peer). -/
theorem parseProviderKey_roundtrip (cid peer : List Char)
    (hc : '/' ∉ cid) (hp : '/' ∉ peer) :
    parseProviderKey ("/providers/".data ++ (cid ++ ('/' :: peer))) =
      Except.ok (cid, peer) := by
  have hkey : "/providers/".data ++ (cid ++ ('/' :: peer)) =
      '/' :: ("providers".data ++ '/' :: (cid ++ '/' :: peer)) := by
    simp [show "/providers/".data = '/' :: ("providers".data ++ ['/']) from by decide]
  have hsplit : jsSplit '/' ("/providers/".data ++ (cid ++ ('/' :: peer))) =
      [[], "providers".data, cid, peer] := by
    rw [hkey]
    show splitAux '/' [] ('/' :: ("providers".data ++ '/' :: (cid ++ '/' :: peer)))
      = [[], "providers".data, cid, peer]
    rw [show splitAux '/' [] ('/' :: ("providers".data ++ '/' :: (cid ++ '/' :: peer)))
        = [].reverse :: splitAux '/' [] ("providers".data ++ '/' :: (cid ++ '/' :: peer))
      from by simp [splitAux]]
    rw [splitAux_append '/' _ _ _ (by decide)]
    rw [splitAux_append '/' _ _ _ hc]
    rw [splitAux_not_mem '/' _ _ hp]
    simp
  simp only [parseProviderKey]
  rw [hsplit]
  simp

/-- Witness for C3: round-tripping the concrete cid text "Qm" and peer text
"CIQ" through a built provider key returns exactly that pair. -/
theorem parseProviderKey_roundtrip_witness :
    '/' ∉ "Qm".data ∧ '/' ∉ "CIQ".data ∧
      parseProviderKey ("/providers/".data ++ ("Qm".data ++ ('/' :: "CIQ".data))) =
        Except.ok ("Qm".data, "CIQ".data) :=
  ⟨by decide, by decide,
    parseProviderKey_roundtrip "Qm".data "CIQ".data (by decide) (by decide)⟩

/-! ## sort_closest_nodes_dht (src/index.js lines 122-131) -/

/-- Roster entry: the only field of a libp2p node that
sort_closest_nodes_dht reads is element.peerId.toB58String(), embedded here
as the Base58 text of the node's peer identifier. -/
structure Node where
  peerIdB58 : List Char
deriving DecidableEq, Repr

/-- Embedding of JavaScript Array.prototype.findIndex over the peers array:
the index of the first element satisfying the predicate, and -1 when no
element does. -/
def findIndexJS (p : Node → Bool) : List Node → Int
  | [] => -1
  | a :: rest =>
    if p a then 0
    else
      let r := findIndexJS p rest
      if r = -1 then -1 else r + 1

/-- Resolution of one yielded identifier against the roster, exactly the
findIndex callback in the source: compare each element's Base58 peer id text
with the yielded identifier's _idB58String. -/
def resolveIdx (peers : List Node) (sorted : List Char) : Int :=
  findIndexJS (fun element => element.peerIdB58 == sorted) peers

/-- Loop of sort_closest_nodes_dht: for each yielded identifier, push the
findIndex result onto the closest_peers accumulator. -/
def sortLoop (peers : List Node) : List (List Char) → List Int → List Int
  | [], closest_peers => closest_peers
  | sorted :: rest, closest_peers =>
    sortLoop peers rest
      (closest_peers ++ [findIndexJS (fun element => element.peerIdB58 == sorted) peers])

/-- Embedding of sort_closest_nodes_dht. The call into the external DHT
capability (getClosestPeers on the converted query bytes) is outside the
repository; its answer — the ordered finite sequence of peer identifiers it
yields, each given by its _idB58String — is the sorted_peers argument. -/
def sort_closest_nodes_dht (peers : List Node) (sorted_peers : List (List Char)) :
    List Int :=
  sortLoop peers sorted_peers []

/-- Error type demanded by the spec's ClosestToKey error-handling sentence. -/
inductive DhtErr where
  | unknownPeer
deriving DecidableEq, Repr

/-- Modelled from the spec (for refinement comparison, not from the source):
the ClosestToKey contract as the spec's error-handling sentence states it —
a returned PeerIdentifier with no matching roster entry is a contract
violation of the external capability and the operation fails with
UnknownPeer instead of recording anything. -/
def ClosestToKeySpecFail (peers : List Node) (sorted_peers : List (List Char)) :
    Except DhtErr (List Int) :=
  if sorted_peers.any (fun sorted => peers.all (fun element => element.peerIdB58 != sorted)) then
    Except.error DhtErr.unknownPeer
  else
    Except.ok (sorted_peers.map (resolveIdx peers))

/-! ### Lemmas about the closest-peers loop -/

/-- The push loop appends the pointwise resolution of the yielded sequence. -/
lemma sortLoop_eq_append_map (peers : List Node) (l : List (List Char)) :
    ∀ acc : List Int, sortLoop peers l acc = acc ++ l.map (resolveIdx peers) := by
  induction l with
  | nil => intro acc; simp [sortLoop]
  | cons s rest ih => intro acc; simp [sortLoop, ih, resolveIdx]

/-- findIndex returns -1 when no element satisfies the predicate. -/
lemma findIndexJS_eq_neg_one (p : Node → Bool) (l : List Node)
    (h : ∀ a ∈ l, ¬ p a = true) : findIndexJS p l = -1 := by
  induction l with
  | nil => simp [findIndexJS]
  | cons a rest ih =>
    have ha : ¬ p a = true := h a (List.mem_cons_self a rest)
    have hrest : findIndexJS p rest = -1 := ih fun b hb => h b (List.mem_cons_of_mem a hb)
    simp [findIndexJS, ha, hrest]

/-- C4. Order preservation: for every roster and every position i, the i-th
element of the output of sort_closest_nodes_dht is exactly the roster
resolution of the i-th identifier yielded by the routing capability — the
output mirrors the received order, with no independent re-sorting. -/
theorem sort_closest_nodes_dht_mirrors_order (peers : List Node)
    (sorted_peers : List (List Char)) (i : Nat) :
    (sort_closest_nodes_dht peers sorted_peers)[i]? =
      (sorted_peers[i]?).map (resolveIdx peers) := by
  unfold sort_closest_nodes_dht
  rw [sortLoop_eq_append_map]
  simp

/-- C10. The output of sort_closest_nodes_dht has exactly one element per
yielded identifier (nothing skipped or added), and every identifier with no
matching roster entry contributes the sentinel index -1 at its position. -/
theorem sort_closest_nodes_dht_length_and_sentinel (peers : List Node)
    (sorted_peers : List (List Char)) :
    (sort_closest_nodes_dht peers sorted_peers).length = sorted_peers.length ∧
      ∀ i, i < sorted_peers.length →
        (∀ e ∈ peers, ¬ e.peerIdB58 = sorted_peers.getD i []) →
        (sort_closest_nodes_dht peers sorted_peers)[i]? = some (-1) := by
  constructor
  · unfold sort_closest_nodes_dht
    rw [sortLoop_eq_append_map]
    simp
  · intro i hi hno
    unfold sort_closest_nodes_dht
    rw [sortLoop_eq_append_map]
    simp only [List.nil_append, List.getElem?_map]
    rw [List.getElem?_eq_getElem hi]
    have hgetD : sorted_peers.getD i [] = sorted_peers[i] := List.getD_eq_getElem _ _ hi
    rw [hgetD] at hno
    have : resolveIdx peers sorted_peers[i] = -1 := by
      apply findIndexJS_eq_neg_one
      intro a ha
      simpa using hno a ha
    simp [this]

/-- Witness for C10 at a concrete roster and yielded sequence: one yielded
identifier matching no roster entry gives output length 1 and the sentinel
-1 in position 0. -/
theorem sort_closest_nodes_dht_length_and_sentinel_witness :
    (sort_closest_nodes_dht [⟨"A".data⟩] ["B".data]).length = 1 ∧
      (sort_closest_nodes_dht [⟨"A".data⟩] ["B".data])[0]? = some (-1) :=
  ⟨(sort_closest_nodes_dht_length_and_sentinel [⟨"A".data⟩] ["B".data]).1,
    (sort_closest_nodes_dht_length_and_sentinel [⟨"A".data⟩] ["B".data]).2 0
      (by decide) (by decide)⟩

/-- Counterexample to C1: at the concrete roster [node "A"] and capability
answer ["B"], the spec-side contract demands failure with UnknownPeer, but
sort_closest_nodes_dht does not fail — it returns normally and silently
records the not-found sentinel -1. -/
theorem sort_closest_nodes_dht_unknown_peer_counterexample :
    ClosestToKeySpecFail [⟨"A".data⟩] ["B".data] = Except.error DhtErr.unknownPeer ∧
      sort_closest_nodes_dht [⟨"A".data⟩] ["B".data] = [-1] := by
  constructor
  · decide
  · decide

/-- C1 amended. An identifier yielded by the capability that matches no
roster entry does not make sort_closest_nodes_dht fail: the function always
returns normally, recording the sentinel index -1 for that identifier. -/
theorem sort_closest_nodes_dht_unmatched_records_sentinel (peers : List Node)
    (sorted_peers : List (List Char)) (s : List Char) (hs : s ∈ sorted_peers)
    (hno : ∀ e ∈ peers, ¬ e.peerIdB58 = s) :
    (-1 : Int) ∈ sort_closest_nodes_dht peers sorted_peers := by
  unfold sort_closest_nodes_dht
  rw [sortLoop_eq_append_map]
  simp only [List.nil_append, List.mem_map]
  refine ⟨s, hs, ?_⟩
  apply findIndexJS_eq_neg_one
  intro a ha
  simpa using hno a ha

/-- Witness for the amended C1: with roster [node "A"] and yielded
identifier "B", the sentinel -1 appears in the returned list. -/
theorem sort_closest_nodes_dht_unmatched_records_sentinel_witness :
    (-1 : Int) ∈ sort_closest_nodes_dht [⟨"A".data⟩] ["B".data] :=
  sort_closest_nodes_dht_unmatched_records_sentinel [⟨"A".data⟩] ["B".data]
    "B".data (by decide) (by decide)

/-! ## XOR distance comparator

The source imports the xor-distance capability (src/index.js line 18); its
implementation is not part of the repository, so it is modelled from the
spec's contract. -/

/-- Error raised on unequal-length operands, per the spec's contract. -/
inductive DistErr where
  | lengthMismatch
deriving DecidableEq, Repr

/-- Modelled from the spec: the XOR Distance Comparator imported at
src/index.js line 18, whose implementation is not in the repository.
Contract per the spec: the bitwise exclusive-or of two equal-length byte
strings (interpreted big-endian for ordering); fails with LengthMismatch
when operand lengths differ. -/
def distance (a b : List Nat) : Except DistErr (List Nat) :=
  if a.length ≠ b.length then Except.error DistErr.lengthMismatch
  else Except.ok (List.zipWith (fun x y => Nat.xor x y) a b)

/-- C7. For equal-length keyspace points the distance is symmetric, and the
distance of a point to itself is the all-zero value of that length. -/
theorem distance_symm_and_self_zero (a b : List Nat) (h : a.length = b.length) :
    distance a b = distance b a ∧ distance a a = Except.ok (List.replicate a.length 0) := by
  constructor
  · simp only [distance, h]
    rw [List.zipWith_comm_of_comm (fun x y => Nat.xor x y) Nat.xor_comm]
  · have hx : ∀ x : ℕ, Nat.xor x x = 0 := fun x => Nat.xor_self x
    simp [distance, List.zipWith_same, hx, List.map_const']

/-- Witness for C7 at concrete equal-length points [1, 2] and [3, 4]. -/
theorem distance_symm_and_self_zero_witness :
    distance [1, 2] [3, 4] = distance [3, 4] [1, 2] ∧
      distance [1, 2] [1, 2] = Except.ok (List.replicate 2 0) :=
  distance_symm_and_self_zero [1, 2] [3, 4] (by decide)

/-! ## Network harness (the main async IIFE, src/index.js lines 134-183)

The roster construction and linking loops are embedded by their effect
traces: the started nodes are represented by their roster indices, and the
address-book seeding loop by the list of (owner index, target index) set
operations it performs, in order. -/

/-- The node-start loop: for index from 0 to 39, push a freshly started
node. Nodes are represented by roster position. -/
def harness_nodes : List Nat :=
  List.range 40

/-- The linking loop: for index from 0 while index < nodes.length - 1,
node index's address book is given the entry for node index + 1 — one set
operation per iteration, recorded as (owner, target). -/
def harness_link_ops (numNodes : Nat) : List (Nat × Nat) :=
  (List.range (numNodes - 1)).map fun index => (index, index + 1)

/-- C8. The harness starts exactly 40 nodes, and the address-book seeding
performs exactly the directed-chain writes: an entry (i, j) is written iff
i < 39 and j = i + 1 — so no full mesh, and no link out of the last node. -/
theorem harness_forty_nodes_and_directed_chain :
    harness_nodes.length = 40 ∧
      ∀ i j : Nat, (i, j) ∈ harness_link_ops harness_nodes.length ↔
        i < 39 ∧ j = i + 1 := by
  refine ⟨by simp [harness_nodes], ?_⟩
  intro i j
  simp only [harness_nodes, harness_link_ops, List.length_range, List.mem_map,
    List.mem_range]
  constructor
  · rintro ⟨k, hk, hkj⟩
    cases hkj
    exact ⟨by omega, rfl⟩
  · rintro ⟨hi, hj⟩
    exact ⟨i, by omega, by rw [hj]⟩

/-! ## SHA-256

Modelled from the SHA-256 standard implemented by the crypto capability
used at src/index.js line 80; bytes and 32-bit words are Nat, with
reductions modulo 2 ^ 32 at every overflow point. -/

/-- Truncation to a 32-bit word. -/
def w32 (n : Nat) : Nat := n % 2 ^ 32

/-- Right rotation of a 32-bit word by k bits. -/
def rotr (k n : Nat) : Nat :=
  w32 n / 2 ^ k + w32 n % 2 ^ k * 2 ^ (32 - k)

/-- Logical right shift of a 32-bit word by k bits. -/
def shr (k n : Nat) : Nat := w32 n / 2 ^ k

/-- Bitwise complement within 32 bits. -/
def notW (n : Nat) : Nat := Nat.xor (2 ^ 32 - 1) (w32 n)

/-- Choice function of the compression rounds. -/
def shaCh (x y z : Nat) : Nat := Nat.xor (Nat.land x y) (Nat.land (notW x) z)

/-- Majority function of the compression rounds. -/
def shaMaj (x y z : Nat) : Nat :=
  Nat.xor (Nat.xor (Nat.land x y) (Nat.land x z)) (Nat.land y z)

/-- Big sigma-0. -/
def bigS0 (x : Nat) : Nat := Nat.xor (Nat.xor (rotr 2 x) (rotr 13 x)) (rotr 22 x)

/-- Big sigma-1. -/
def bigS1 (x : Nat) : Nat := Nat.xor (Nat.xor (rotr 6 x) (rotr 11 x)) (rotr 25 x)

/-- Small sigma-0 of the message schedule. -/
def smallS0 (x : Nat) : Nat := Nat.xor (Nat.xor (rotr 7 x) (rotr 18 x)) (shr 3 x)

/-- Small sigma-1 of the message schedule. -/
def smallS1 (x : Nat) : Nat := Nat.xor (Nat.xor (rotr 17 x) (rotr 19 x)) (shr 10 x)

/-- The 64 round constants (decimal). -/
def shaK : List Nat :=
  [1116352408, 1899447441, 3049323471, 3921009573, 961987163, 1508970993,
   2453635748, 2870763221, 3624381080, 310598401, 607225278, 1426881987,
   1925078388, 2162078206, 2614888103, 3248222580, 3835390401, 4022224774,
   264347078, 604807628, 770255983, 1249150122, 1555081692, 1996064986,
   2554220882, 2821834349, 2952996808, 3210313671, 3336571891, 3584528711,
   113926993, 338241895, 666307205, 773529912, 1294757372, 1396182291,
   1695183700, 1986661051, 2177026350, 2456956037, 2730485921, 2820302411,
   3259730800, 3345764771, 3516065817, 3600352804, 4094571909, 275423344,
   430227734, 506948616, 659060556, 883997877, 958139571, 1322822218,
   1537002063, 1747873779, 1955562222, 2024104815, 2227730452, 2361852424,
   2428436474, 2756734187, 3204031479, 3329325298]

/-- Working state: eight 32-bit words. -/
structure Hash8 where
  h0 : Nat
  h1 : Nat
  h2 : Nat
  h3 : Nat
  h4 : Nat
  h5 : Nat
  h6 : Nat
  h7 : Nat
deriving DecidableEq, Repr

/-- Initial hash value (decimal). -/
def initH : Hash8 :=
  ⟨1779033703, 3144134277, 1013904242, 2773480762,
   1359893119, 2600822924, 528734635, 1541459225⟩

/-- Big-endian packing of bytes into 32-bit words. -/
def bytesToWords : List Nat → List Nat
  | b0 :: b1 :: b2 :: b3 :: rest =>
    (b0 * 2 ^ 24 + b1 * 2 ^ 16 + b2 * 2 ^ 8 + b3) :: bytesToWords rest
  | _ => []

/-- One extension step of the message schedule. -/
def scheduleStep (w : List Nat) : List Nat :=
  let n := w.length
  w ++ [w32 (w.getD (n - 16) 0 + smallS0 (w.getD (n - 15) 0) +
    w.getD (n - 7) 0 + smallS1 (w.getD (n - 2) 0))]

/-- Iterated schedule extension. -/
def extendSchedule : Nat → List Nat → List Nat
  | 0, w => w
  | t + 1, w => extendSchedule t (scheduleStep w)

/-- One compression round on the working state with one (constant, word)
pair. -/
def roundStep (s : Hash8) (kw : Nat × Nat) : Hash8 :=
  let t1 := w32 (s.h7 + bigS1 s.h4 + shaCh s.h4 s.h5 s.h6 + kw.1 + kw.2)
  let t2 := w32 (bigS0 s.h0 + shaMaj s.h0 s.h1 s.h2)
  ⟨w32 (t1 + t2), s.h0, s.h1, s.h2, w32 (s.h3 + t1), s.h4, s.h5, s.h6⟩

/-- Compression of one 64-byte block into the chaining state. -/
def compressBlock (s : Hash8) (block : List Nat) : Hash8 :=
  let ws := extendSchedule 48 (bytesToWords block)
  let t := (List.zip shaK ws).foldl roundStep s
  ⟨w32 (s.h0 + t.h0), w32 (s.h1 + t.h1), w32 (s.h2 + t.h2), w32 (s.h3 + t.h3),
   w32 (s.h4 + t.h4), w32 (s.h5 + t.h5), w32 (s.h6 + t.h6), w32 (s.h7 + t.h7)⟩

/-- Big-endian 8-byte encoding of the bit length. -/
def lenBytes64 (n : Nat) : List Nat :=
  [n / 2 ^ 56 % 256, n / 2 ^ 48 % 256, n / 2 ^ 40 % 256, n / 2 ^ 32 % 256,
   n / 2 ^ 24 % 256, n / 2 ^ 16 % 256, n / 2 ^ 8 % 256, n % 256]

/-- SHA-256 padding: a 0x80 byte, zeros to 56 mod 64, then the 64-bit
big-endian bit length. -/
def padMessage (msg : List Nat) : List Nat :=
  let len := msg.length
  let z := (64 - (len + 9) % 64) % 64
  msg ++ [0x80] ++ List.replicate z 0 ++ lenBytes64 (len * 8)

/-- Fuel-indexed 64-byte chunking (fuel bounds the number of steps so the
recursion is structural and kernel-reducible). -/
def chunksAux : Nat → List Nat → List (List Nat)
  | 0, _ => []
  | _, [] => []
  | fuel + 1, l => l.take 64 :: chunksAux fuel (l.drop 64)

/-- Split a byte list into 64-byte blocks. -/
def chunks64 (l : List Nat) : List (List Nat) := chunksAux l.length l

/-- Big-endian bytes of one 32-bit word. -/
def wordBytes (w : Nat) : List Nat :=
  [w / 2 ^ 24 % 256, w / 2 ^ 16 % 256, w / 2 ^ 8 % 256, w % 256]

/-- Serialization of the final state to the 32 digest bytes. -/
def hashBytes (s : Hash8) : List Nat :=
  wordBytes s.h0 ++ wordBytes s.h1 ++ wordBytes s.h2 ++ wordBytes s.h3 ++
    wordBytes s.h4 ++ wordBytes s.h5 ++ wordBytes s.h6 ++ wordBytes s.h7

/-- SHA-256 of a byte sequence. -/
def sha256 (content : List Nat) : List Nat :=
  hashBytes ((chunks64 (padMessage content)).foldl compressBlock initH)

/-! ## Multihash encoding, Base58 and CID (src/index.js lines 79-84) -/

/-- Modelled from the multihash library used at src/index.js line 81: the
encoded multihash is the varint hash-function code (0x12 for sha2-256)
followed by the varint digest length and the digest itself; both varints
are single bytes for a 32-byte sha2-256 digest. -/
def multihashEncode (digest : List Nat) : List Nat :=
  0x12 :: digest.length :: digest

/-- The Base58 (Bitcoin) alphabet. -/
def b58Alphabet : List Char :=
  "123456789ABCDEFGHJKLMNPQRSTUVWXYZabcdefghijkmnopqrstuvwxyz".data

/-- One Base58 digit character. -/
def b58Digit (d : Nat) : Char := b58Alphabet.getD d '?'

/-- Big-endian interpretation of a byte string as a natural number. -/
def natOfBytes (bytes : List Nat) : Nat :=
  bytes.foldl (fun n b => n * 256 + b) 0

/-- Count of leading zero bytes (each encodes to a leading '1'). -/
def countLeadingZeroBytes : List Nat → Nat
  | [] => 0
  | b :: rest => if b = 0 then countLeadingZeroBytes rest + 1 else 0

/-- Modelled from the Base58 encoding used by multihash.toB58String at
src/index.js line 82: one '1' per leading zero byte, then the big-endian
base-58 digits of the byte string's value through the Base58 alphabet. -/
def toB58String (bytes : List Nat) : List Char :=
  List.replicate (countLeadingZeroBytes bytes) '1' ++
    ((Nat.digits 58 (natOfBytes bytes)).reverse.map b58Digit)

/-- Content identifier: version 0 wrapping the Base58 multihash text, as
produced by the cids constructor on a Base58 multihash string. -/
structure CID where
  version : Nat
  multihashB58 : List Char
deriving DecidableEq, Repr

/-- Embedding of create_CID: the SHA-256 digest of the content, encoded as
a sha2-256 multihash, rendered in Base58, and wrapped as a version-0 CID. -/
def create_CID (content : List Nat) : CID :=
  let hash := sha256 content
  let encoded := multihashEncode hash
  ⟨0, toB58String encoded⟩

/-! ### Digest shape lemmas -/

/-- Bytes produced by wordBytes are below 256. -/
lemma wordBytes_lt (w : Nat) : ∀ x ∈ wordBytes w, x < 256 := by
  intro x hx
  simp only [wordBytes, List.mem_cons, List.not_mem_nil, or_false] at hx
  rcases hx with h | h | h | h <;> subst h <;> exact Nat.mod_lt _ (by norm_num)

/-- The serialized state has one byte per word bit-range: 32 bytes. -/
lemma hashBytes_length (s : Hash8) : (hashBytes s).length = 32 := by
  simp [hashBytes, wordBytes]

/-- Every byte of the serialized state is below 256. -/
lemma hashBytes_lt (s : Hash8) : ∀ x ∈ hashBytes s, x < 256 := by
  intro x hx
  simp only [hashBytes, List.append_assoc, List.mem_append] at hx
  rcases hx with h | h | h | h | h | h | h | h <;> exact wordBytes_lt _ _ h

/-- The digest has exactly 32 bytes. -/
lemma sha256_length (c : List Nat) : (sha256 c).length = 32 :=
  hashBytes_length _

/-- Every digest byte is below 256. -/
lemma sha256_lt (c : List Nat) : ∀ x ∈ sha256 c, x < 256 :=
  hashBytes_lt _

/-! ### Base58 injectivity -/

/-- The Base58 digit map is injective on the digit range. -/
lemma b58Digit_inj_fin : ∀ d1 d2 : Fin 58, b58Digit d1 = b58Digit d2 → d1 = d2 := by
  decide

/-- The Base58 digit map is injective on naturals below 58. -/
lemma b58Digit_inj_of_lt {d1 d2 : Nat} (h1 : d1 < 58) (h2 : d2 < 58)
    (h : b58Digit d1 = b58Digit d2) : d1 = d2 :=
  congrArg Fin.val (b58Digit_inj_fin ⟨d1, h1⟩ ⟨d2, h2⟩ h)

/-- Mapping the Base58 digit map over digit lists below 58 is injective. -/
lemma map_b58Digit_inj : ∀ l1 l2 : List Nat, (∀ d ∈ l1, d < 58) → (∀ d ∈ l2, d < 58) →
    l1.map b58Digit = l2.map b58Digit → l1 = l2 := by
  intro l1
  induction l1 with
  | nil =>
    intro l2 _ _ h
    cases l2 with
    | nil => rfl
    | cons b t2 => simp at h
  | cons a t ih =>
    intro l2 h1 h2 h
    cases l2 with
    | nil => simp at h
    | cons b t2 =>
      simp only [List.map_cons, List.cons.injEq] at h
      have ha := b58Digit_inj_of_lt (h1 a (List.mem_cons_self a t))
        (h2 b (List.mem_cons_self b t2)) h.1
      have ht := ih t2 (fun d hd => h1 d (List.mem_cons_of_mem a hd))
        (fun d hd => h2 d (List.mem_cons_of_mem b hd)) h.2
      rw [ha, ht]

/-! ### Big-endian byte-value injectivity -/

/-- The big-endian foldl in terms of ofDigits of the reversed list. -/
lemma foldl_natOfBytes (l : List Nat) : ∀ acc : Nat,
    l.foldl (fun n b => n * 256 + b) acc =
      acc * 256 ^ l.length + Nat.ofDigits 256 l.reverse := by
  induction l with
  | nil => intro acc; simp [Nat.ofDigits_nil]
  | cons b t ih =>
    intro acc
    simp only [List.foldl_cons, List.reverse_cons, List.length_cons]
    rw [ih (acc * 256 + b), Nat.ofDigits_append]
    simp only [Nat.ofDigits_cons, Nat.ofDigits_nil, Nat.cast_id,
      List.length_reverse, Nat.cast_ofNat]
    ring

/-- Equal-length little-endian base-256 digit lists with equal values are
equal. -/
lemma ofDigits256_inj : ∀ l1 l2 : List Nat, l1.length = l2.length →
    (∀ d ∈ l1, d < 256) → (∀ d ∈ l2, d < 256) →
    Nat.ofDigits 256 l1 = Nat.ofDigits 256 l2 → l1 = l2 := by
  intro l1
  induction l1 with
  | nil =>
    intro l2 hlen _ _ _
    cases l2 with
    | nil => rfl
    | cons b t2 => simp at hlen
  | cons a t ih =>
    intro l2 hlen h1 h2 h
    cases l2 with
    | nil => simp at hlen
    | cons b t2 =>
      simp only [Nat.ofDigits_cons, Nat.cast_id, Nat.cast_ofNat] at h
      have ha : a < 256 := h1 a (List.mem_cons_self a t)
      have hb : b < 256 := h2 b (List.mem_cons_self b t2)
      have key : a = b ∧ Nat.ofDigits 256 t = Nat.ofDigits 256 t2 := by omega
      have ht := ih t2 (by simpa using hlen)
        (fun d hd => h1 d (List.mem_cons_of_mem a hd))
        (fun d hd => h2 d (List.mem_cons_of_mem b hd)) key.2
      rw [key.1, ht]

/-- Equal-length byte strings with equal big-endian values are equal. -/
lemma natOfBytes_inj (l1 l2 : List Nat) (hlen : l1.length = l2.length)
    (h1 : ∀ d ∈ l1, d < 256) (h2 : ∀ d ∈ l2, d < 256)
    (h : natOfBytes l1 = natOfBytes l2) : l1 = l2 := by
  unfold natOfBytes at h
  rw [foldl_natOfBytes, foldl_natOfBytes] at h
  simp only [Nat.zero_mul, Nat.zero_add, zero_mul, zero_add] at h
  have hr := ofDigits256_inj l1.reverse l2.reverse (by simp [hlen])
    (fun d hd => h1 d (List.mem_reverse.mp hd))
    (fun d hd => h2 d (List.mem_reverse.mp hd)) h
  exact List.reverse_injective hr

/-! ### create_CID theorems -/

/-- C5. create_CID is deterministic: two calls on identical content yield
bit-identical content identifiers. -/
theorem create_CID_deterministic (c1 c2 : List Nat) (h : c1 = c2) :
    create_CID c1 = create_CID c2 := by
  rw [h]

/-- Witness for C5 at the harness's own payload, the bytes of the string
"hello world!". -/
theorem create_CID_deterministic_witness :
    create_CID ("hello world!".data.map Char.toNat) =
      create_CID ("hello world!".data.map Char.toNat) :=
  create_CID_deterministic ("hello world!".data.map Char.toNat)
    ("hello world!".data.map Char.toNat) rfl

/-- C6. Contents whose SHA-256 digests differ receive different content
identifiers: the multihash wrapping and Base58 rendering inside create_CID
lose no information about the digest. -/
theorem create_CID_inj_of_digest_ne (c1 c2 : List Nat)
    (h : sha256 c1 ≠ sha256 c2) : create_CID c1 ≠ create_CID c2 := by
  intro heq
  apply h
  have hb58 : toB58String (multihashEncode (sha256 c1)) =
      toB58String (multihashEncode (sha256 c2)) :=
    congrArg CID.multihashB58 heq
  have hz : ∀ d : List Nat, countLeadingZeroBytes (multihashEncode d) = 0 := by
    intro d
    simp [countLeadingZeroBytes, multihashEncode]
  rw [toB58String, toB58String, hz, hz, List.replicate_zero, List.nil_append,
    List.nil_append] at hb58
  have hdigits : Nat.digits 58 (natOfBytes (multihashEncode (sha256 c1))) =
      Nat.digits 58 (natOfBytes (multihashEncode (sha256 c2))) := by
    apply List.reverse_injective
    refine map_b58Digit_inj _ _ ?_ ?_ hb58
    · intro d hd
      exact Nat.digits_lt_base (by norm_num) (List.mem_reverse.mp hd)
    · intro d hd
      exact Nat.digits_lt_base (by norm_num) (List.mem_reverse.mp hd)
  have hval : natOfBytes (multihashEncode (sha256 c1)) =
      natOfBytes (multihashEncode (sha256 c2)) := by
    have hc := congrArg (Nat.ofDigits 58) hdigits
    rwa [Nat.ofDigits_digits, Nat.ofDigits_digits] at hc
  have hbytes : ∀ c : List Nat, ∀ d ∈ multihashEncode (sha256 c), d < 256 := by
    intro c d hd
    simp only [multihashEncode, List.mem_cons] at hd
    rcases hd with h' | h' | h'
    · omega
    · rw [h', sha256_length]; omega
    · exact sha256_lt c d h'
  have henc : multihashEncode (sha256 c1) = multihashEncode (sha256 c2) := by
    refine natOfBytes_inj _ _ ?_ (hbytes c1) (hbytes c2) hval
    simp [multihashEncode, sha256_length]
  simpa [multihashEncode, sha256_length] using henc

/-- Witness for C6: the empty content and the one-byte content [0] have
different SHA-256 digests, hence different content identifiers. -/
theorem create_CID_inj_of_digest_ne_witness :
    sha256 [] ≠ sha256 [0] ∧ create_CID [] ≠ create_CID [0] :=
  ⟨by decide, create_CID_inj_of_digest_ne [] [0] (by decide)⟩

end KadEval
